import Mathlib

/-!
Verification of the findora-sun/platform wallet-mobile FFI surface
(components/wallet_mobile/wallet_mobile_ffi.h) against its design
specification.  The header is autogenerated by cbindgen and carries only
declarations and documentation; the operational behaviour below is
modelled from the specification's component design (fee calculator,
authenticated-proof verifier, asset-record model, transfer-operation
builder), with the header supplying the signatures, the record-type
enumeration discriminants, and the const-pointer/handle calling
convention of the builder entry points.
-/

namespace WalletMobile

/-- Error taxonomy of the wallet core, as listed in the specification's
error-handling design. -/
inductive FfiError where
  | RecordMismatch
  | ArithmeticOverflow
  | DivisionByZero
  | Unbalanced
  | AmbiguousChangeOwner
  | NotBalanced
  | UnknownSigner
  | InvalidInputIndex
  | IncompleteSignatures
  | MalformedProof
deriving DecidableEq, Repr

instance {ε α : Type} [DecidableEq ε] [DecidableEq α] : DecidableEq (Except ε α) := fun x y =>
  match x, y with
  | Except.ok a, Except.ok b => decidable_of_iff (a = b) (by simp)
  | Except.ok _, Except.error _ => isFalse (by simp)
  | Except.error _, Except.ok _ => isFalse (by simp)
  | Except.error e, Except.error f => decidable_of_iff (e = f) (by simp)

/-- Numeric range bound of the unsigned 64-bit amounts used throughout the
FFI surface. -/
def U64_MOD : Nat := 2 ^ 64

/-- Modelled from the spec: the FeeCalculator operation behind
findora_ffi_calculate_fee, whose body is not part of the header.  It
computes the ceiling of outstanding_balance * ir_numerator / ir_denominator
in exact integer arithmetic, fails with DivisionByZero when the denominator
is zero and with ArithmeticOverflow when the product exceeds the unsigned
64-bit range. -/
def findora_ffi_calculate_fee (ir_numerator ir_denominator outstanding_balance : Nat) :
    Except FfiError Nat :=
  if ir_denominator = 0 then
    Except.error FfiError.DivisionByZero
  else if U64_MOD ≤ outstanding_balance * ir_numerator then
    Except.error FfiError.ArithmeticOverflow
  else
    Except.ok ((outstanding_balance * ir_numerator + ir_denominator - 1) / ir_denominator)

/-! ## Authenticated proof verification -/

/-- Deserialized form of an authenticated transaction proof: the
transaction's serialized bytes together with the sibling-hash path needed
to recompute the state-commitment root. -/
structure AuthenticatedTxn where
  txn : List Nat
  path : List Nat
deriving DecidableEq, Repr

/-- Modelled from the spec: the proof deserializer behind
findora_ffi_verify_authenticated_txn, whose body is not part of the header.
Proof bytes are length-prefixed: the first byte is the number of
transaction bytes, followed by the transaction bytes and then the sibling
path.  An empty buffer or an inconsistent length prefix is structurally
malformed. -/
def parseProof (bytes : List Nat) : Except FfiError AuthenticatedTxn :=
  match bytes with
  | [] => Except.error FfiError.MalformedProof
  | len :: rest =>
    if len ≤ rest.length then
      Except.ok ⟨rest.take len, rest.drop len⟩
    else
      Except.error FfiError.MalformedProof

/-- Injective encoding of a byte list into a single natural, used as the
ideal (collision-free) hash of a transaction's serialized bytes. -/
def encodeList : List Nat → Nat
  | [] => 0
  | a :: t => Nat.pair a (encodeList t) + 1

/-- Modelled from the spec: the leaf hash of the transaction's serialized
bytes in the root recomputation.  The hash is idealized as an injective
pairing; the zero first component marks a leaf, distinguishing it from
interior chain nodes. -/
def leafHash (txn : List Nat) : Nat := Nat.pair 0 (encodeList txn) + 1

/-- Modelled from the spec: the hash chain folding an accumulated digest
with each sibling hash in turn, idealized as an injective pairing shifted
away from the leaf marker. -/
def chainRoot (acc : Nat) : List Nat → Nat
  | [] => acc
  | sib :: rest => chainRoot (Nat.pair acc sib + 1) rest

/-- Modelled from the spec: recomputing the Merkle (hash-chain) root from
the transaction's serialized bytes and the supplied sibling path. -/
def recomputeRoot (p : AuthenticatedTxn) : Nat :=
  chainRoot (leafHash p.txn) p.path

/-- Modelled from the spec: findora_ffi_verify_authenticated_txn, whose
body is not part of the header.  It deserializes the proof (failing with
MalformedProof on a structurally malformed buffer, never returning false
in that case), recomputes the root, and returns true exactly when the
recomputed root equals the supplied state commitment. -/
def findora_ffi_verify_authenticated_txn (state_commitment : Nat) (proofBytes : List Nat) :
    Except FfiError Bool :=
  match parseProof proofBytes with
  | Except.error e => Except.error e
  | Except.ok p => Except.ok (decide (recomputeRoot p = state_commitment))

/-! ## Asset record model -/

/-- Record-type enumeration, with discriminants exactly as documented in
the header above findora_ffi_open_client_asset_record_get_record_type. -/
inductive AssetRecordType where
  | NonConfidentialAmount_ConfidentialAssetType
  | ConfidentialAmount_NonConfidentialAssetType
  | ConfidentialAmount_ConfidentialAssetType
  | NonConfidentialAmount_NonConfidentialAssetType
deriving DecidableEq, Repr

/-- Integer discriminant of a record type, following the enumeration in
the header: NonConfidentialAmount_ConfidentialAssetType is 0,
ConfidentialAmount_NonConfidentialAssetType is 1,
ConfidentialAmount_ConfidentialAssetType is 2,
NonConfidentialAmount_NonConfidentialAssetType is 3. -/
def AssetRecordType.toInt : AssetRecordType → Int
  | AssetRecordType.NonConfidentialAmount_ConfidentialAssetType => 0
  | AssetRecordType.ConfidentialAmount_NonConfidentialAssetType => 1
  | AssetRecordType.ConfidentialAmount_ConfidentialAssetType => 2
  | AssetRecordType.NonConfidentialAmount_NonConfidentialAssetType => 3

/-- A field of a stored asset record: either in the clear or hidden behind
a commitment. -/
inductive FieldView where
  | visible (value : Nat)
  | hidden (commitment : Nat)
deriving DecidableEq, Repr

/-- Modelled from the spec: the binding commitment hiding a confidential
field, idealized as an injective pairing of the value with its blinding
factor. -/
def commit (value blind : Nat) : Nat := Nat.pair value blind

/-- Modelled from the spec: a ClientAssetRecord as stored on the ledger —
a possibly-hidden amount, a possibly-hidden asset-type code, and an
always-visible owner public key. -/
structure ClientAssetRecord where
  amountField : FieldView
  typeField : FieldView
  owner : Nat
deriving DecidableEq, Repr

/-- Modelled from the spec: an OwnerMemo carrying the blinding data that,
together with the owner's key, recovers the hidden fields of its
record. -/
structure OwnerMemo where
  amount : Nat
  assetType : Nat
  blindAmount : Nat
  blindType : Nat
deriving DecidableEq, Repr

/-- Decrypted view of an asset record: explicit amount, explicit
asset-type code, owner public key, and the record-type tag saying which
fields were hidden in the source record. -/
structure OpenAssetRecord where
  amount : Nat
  assetType : Nat
  owner : Nat
  recordType : AssetRecordType
deriving DecidableEq, Repr

/-- Record-type tag determined by the two confidentiality flags
(amount hidden, asset type hidden). -/
def recordTypeOfFlags (confAmount confType : Bool) : AssetRecordType :=
  match confAmount, confType with
  | false, true => AssetRecordType.NonConfidentialAmount_ConfidentialAssetType
  | true, false => AssetRecordType.ConfidentialAmount_NonConfidentialAssetType
  | true, true => AssetRecordType.ConfidentialAmount_ConfidentialAssetType
  | false, false => AssetRecordType.NonConfidentialAmount_NonConfidentialAssetType

/-- Modelled from the spec: producing a ClientAssetRecord for a known
amount and asset-type code under the requested confidentiality flags,
together with the owner memo (absent for fully non-confidential
records). -/
def encryptRecord (amount assetType owner : Nat) (confAmount confType : Bool)
    (blindAmount blindType : Nat) : ClientAssetRecord × Option OwnerMemo :=
  (⟨if confAmount then FieldView.hidden (commit amount blindAmount)
      else FieldView.visible amount,
    if confType then FieldView.hidden (commit assetType blindType)
      else FieldView.visible assetType,
    owner⟩,
   if confAmount || confType then some ⟨amount, assetType, blindAmount, blindType⟩
   else none)

/-- Modelled from the spec: the open operation behind
findora_ffi_open_client_asset_record, whose body is not part of the
header.  Key pairs are modelled by their public key.  It fails with
RecordMismatch when the key pair does not own the record, when a memo is
required (a field is hidden) but missing, or when a commitment recomputed
from the memo disagrees with the stored commitment; otherwise it returns
the decrypted record. -/
def findora_ffi_open_client_asset_record (record : ClientAssetRecord)
    (owner_memo : Option OwnerMemo) (keypair : Nat) : Except FfiError OpenAssetRecord :=
  if record.owner ≠ keypair then Except.error FfiError.RecordMismatch
  else
    match record.amountField, record.typeField with
    | FieldView.visible a, FieldView.visible t =>
      Except.ok ⟨a, t, record.owner,
        AssetRecordType.NonConfidentialAmount_NonConfidentialAssetType⟩
    | FieldView.visible a, FieldView.hidden ct =>
      match owner_memo with
      | none => Except.error FfiError.RecordMismatch
      | some m =>
        if commit m.assetType m.blindType = ct then
          Except.ok ⟨a, m.assetType, record.owner,
            AssetRecordType.NonConfidentialAmount_ConfidentialAssetType⟩
        else Except.error FfiError.RecordMismatch
    | FieldView.hidden ca, FieldView.visible t =>
      match owner_memo with
      | none => Except.error FfiError.RecordMismatch
      | some m =>
        if commit m.amount m.blindAmount = ca then
          Except.ok ⟨m.amount, t, record.owner,
            AssetRecordType.ConfidentialAmount_NonConfidentialAssetType⟩
        else Except.error FfiError.RecordMismatch
    | FieldView.hidden ca, FieldView.hidden ct =>
      match owner_memo with
      | none => Except.error FfiError.RecordMismatch
      | some m =>
        if commit m.amount m.blindAmount = ca ∧ commit m.assetType m.blindType = ct then
          Except.ok ⟨m.amount, m.assetType, record.owner,
            AssetRecordType.ConfidentialAmount_ConfidentialAssetType⟩
        else Except.error FfiError.RecordMismatch

/-- Record-type discriminant getter of the header, returning the integer
enumeration value of an opened record's record type. -/
def findora_ffi_open_client_asset_record_get_record_type (record : OpenAssetRecord) : Int :=
  record.recordType.toInt

/-! ## Transfer operation builder -/

/-- One builder input entry: txo reference, spent amount, asset-type code,
owning public key, and whether auditor tracing ciphertext is generated for
it. -/
structure BuilderInput where
  txoRef : Nat
  amount : Nat
  assetCode : String
  owner : Nat
  hasTracing : Bool
deriving DecidableEq, Repr

/-- One builder output entry: amount, recipient public key, asset-type
code, confidentiality flags for amount and type, and whether auditor
tracing ciphertext is generated for it. -/
structure BuilderOutput where
  amount : Nat
  recipient : Nat
  assetCode : String
  confAmount : Bool
  confType : Bool
  hasTracing : Bool
deriving DecidableEq, Repr

/-- Modelled from the spec: the TransferOperationBuilder state behind the
opaque handle of the header — ordered inputs, ordered outputs, the
structural fingerprint captured at balance time (absent before the first
successful balance), the finalized flag, the public keys that have signed,
and the co-signatures recorded per input index. -/
structure TransferOperationBuilder where
  inputs : List BuilderInput
  outputs : List BuilderOutput
  balancedFingerprint : Option (List BuilderInput × List BuilderOutput)
  finalized : Bool
  signatures : List Nat
  cosignatures : List (Nat × Nat)
deriving DecidableEq, Repr

/-- Modelled from the spec: findora_ffi_transfer_operation_builder_new —
an empty builder. -/
def TransferOperationBuilder.new : TransferOperationBuilder :=
  ⟨[], [], none, false, [], []⟩

/-- Modelled from the spec: appending one input entry (the shared core of
the with-tracing and no-tracing add_input variants, which differ only in
the tracing flag). -/
def addInput (b : TransferOperationBuilder) (txoRef amount : Nat) (assetCode : String)
    (owner : Nat) (hasTracing : Bool) : TransferOperationBuilder :=
  { b with inputs := b.inputs ++ [⟨txoRef, amount, assetCode, owner, hasTracing⟩] }

/-- Modelled from the spec: appending one output entry (the shared core of
the with-tracing and no-tracing add_output variants, which differ only in
the tracing flag). -/
def addOutput (b : TransferOperationBuilder) (amount recipient : Nat) (assetCode : String)
    (confAmount confType hasTracing : Bool) : TransferOperationBuilder :=
  { b with outputs := b.outputs ++ [⟨amount, recipient, assetCode, confAmount, confType, hasTracing⟩] }

/-- Sum of the input amounts of one asset-type code. -/
def sumInputAmounts (b : TransferOperationBuilder) (code : String) : Nat :=
  ((b.inputs.filter fun i => i.assetCode = code).map fun i => i.amount).sum

/-- Sum of the output amounts of one asset-type code. -/
def sumOutputAmounts (b : TransferOperationBuilder) (code : String) : Nat :=
  ((b.outputs.filter fun o => o.assetCode = code).map fun o => o.amount).sum

/-- The distinct asset-type codes appearing among the builder's inputs. -/
def inputCodes (b : TransferOperationBuilder) : List String :=
  (b.inputs.map fun i => i.assetCode).dedup

/-- The distinct owner public keys among the inputs of one asset-type
code. -/
def inputOwners (b : TransferOperationBuilder) (code : String) : List Nat :=
  ((b.inputs.filter fun i => i.assetCode = code).map fun i => i.owner).dedup

/-- Surplus of one asset-type code: input amounts not yet spent by the
outputs (truncated subtraction; the balance operation rejects the
overspent case first). -/
def surplusOf (b : TransferOperationBuilder) (code : String) : Nat :=
  sumInputAmounts b code - sumOutputAmounts b code

/-- Majority amount-confidentiality flag among the existing outputs of one
asset-type code. -/
def majorityConfAmount (b : TransferOperationBuilder) (code : String) : Bool :=
  let outs := b.outputs.filter fun o => o.assetCode = code
  decide (outs.length < 2 * (outs.filter fun o => o.confAmount).length)

/-- Majority type-confidentiality flag among the existing outputs of one
asset-type code. -/
def majorityConfType (b : TransferOperationBuilder) (code : String) : Bool :=
  let outs := b.outputs.filter fun o => o.assetCode = code
  decide (outs.length < 2 * (outs.filter fun o => o.confType).length)

/-- Modelled from the spec: the change outputs synthesized by balance —
one per asset-type code with a positive surplus, amount equal to the
surplus, recipient the sole input owner of that code, confidentiality
flags matching the majority of that code's existing outputs. -/
def changeOutputs (b : TransferOperationBuilder) : List BuilderOutput :=
  (inputCodes b).filterMap fun c =>
    if 0 < surplusOf b c then
      some ⟨surplusOf b c, ((inputOwners b c).head?).getD 0, c,
        majorityConfAmount b c, majorityConfType b c, false⟩
    else none

/-- Modelled from the spec: findora_ffi_transfer_operation_builder_balance,
whose body is not part of the header.  It fails with Unbalanced when some
input asset-type code is overspent by the outputs, fails with
AmbiguousChangeOwner when a code with a positive surplus has inputs owned
by more than one key, and otherwise appends the synthesized change outputs
and captures the structural fingerprint of the balanced state. -/
def findora_ffi_transfer_operation_builder_balance (b : TransferOperationBuilder) :
    Except FfiError TransferOperationBuilder :=
  if (inputCodes b).any (fun c => decide (sumInputAmounts b c < sumOutputAmounts b c)) then
    Except.error FfiError.Unbalanced
  else if (inputCodes b).any
      (fun c => decide (0 < surplusOf b c) && decide (1 < (inputOwners b c).length)) then
    Except.error FfiError.AmbiguousChangeOwner
  else
    Except.ok
      { b with
        outputs := b.outputs ++ changeOutputs b,
        balancedFingerprint := some (b.inputs, b.outputs ++ changeOutputs b) }

/-- Modelled from the spec: findora_ffi_transfer_operation_builder_create,
whose body is not part of the header.  It fails with NotBalanced unless
the fingerprint captured at balance time matches the current inputs and
outputs (so both a builder never balanced and a builder mutated after
balancing are rejected); otherwise it finalizes the operation body. -/
def findora_ffi_transfer_operation_builder_create (b : TransferOperationBuilder) :
    Except FfiError TransferOperationBuilder :=
  if b.balancedFingerprint = some (b.inputs, b.outputs) then
    Except.ok { b with finalized := true }
  else
    Except.error FfiError.NotBalanced

/-- Modelled from the spec: findora_ffi_transfer_operation_builder_sign,
whose body is not part of the header.  Key pairs are modelled by their
public key; signing records the signature against every input owned by the
key and fails with UnknownSigner when the key owns no input.  The
Finalized-state precondition is left implicit: the specification names no
taxonomy error for violating it. -/
def findora_ffi_transfer_operation_builder_sign (b : TransferOperationBuilder) (kp : Nat) :
    Except FfiError TransferOperationBuilder :=
  if b.inputs.any (fun i => decide (i.owner = kp)) then
    Except.ok { b with signatures := b.signatures ++ [kp] }
  else
    Except.error FfiError.UnknownSigner

/-- Modelled from the spec:
findora_ffi_transfer_operation_builder_add_cosignature, whose body is not
part of the header.  It records a co-signature for one input index and
fails with InvalidInputIndex when the index is out of range. -/
def findora_ffi_transfer_operation_builder_add_cosignature (b : TransferOperationBuilder)
    (kp input_idx : Nat) : Except FfiError TransferOperationBuilder :=
  if input_idx < b.inputs.length then
    Except.ok { b with cosignatures := b.cosignatures ++ [(input_idx, kp)] }
  else
    Except.error FfiError.InvalidInputIndex

/-- Opaque serialization of the builder used by the debug and transaction
projections. -/
def serializeBuilder (b : TransferOperationBuilder) : String :=
  toString (repr b)

/-- Debug projection of the header: a read-only rendering of the builder
state. -/
def findora_ffi_transfer_operation_builder_debug (b : TransferOperationBuilder) : String :=
  serializeBuilder b

/-- Modelled from the spec:
findora_ffi_transfer_operation_builder_transaction, whose body is not part
of the header.  The read-only projection of the serialized operation; it
fails with IncompleteSignatures unless every input owner has signed.  The
model records no co-signature requirements, so input-owner signatures are
the required set. -/
def findora_ffi_transfer_operation_builder_transaction (b : TransferOperationBuilder) :
    Except FfiError String :=
  if b.inputs.all (fun i => decide (i.owner ∈ b.signatures)) then
    Except.ok (serializeBuilder b)
  else
    Except.error FfiError.IncompleteSignatures

/-! ## FFI handle store

The header passes every builder behind a const pointer and returns a
pointer to a continued builder.  This calling convention is modelled by a
store of builder values addressed by handles: an entry point reads the
builder behind the argument handle, leaves the store's existing entries
untouched, and appends the continued builder under a fresh handle (or, on
failure, appends nothing and returns no handle). -/

/-- The heap of live builder objects, addressed by handle (index). -/
abbrev Store := List TransferOperationBuilder

/-- The builder value a handle points at, when the handle is live. -/
def lookupBuilder (s : Store) (h : Nat) : Option TransferOperationBuilder :=
  List.get? s h

/-- Modelled from the header's calling convention: one FFI builder entry
point — the builder behind the const-pointer argument is read, never
written; on success the continued builder is placed under a fresh handle,
on failure the store is unchanged and no handle is returned. -/
def ffiStep (s : Store) (h : Nat)
    (f : TransferOperationBuilder → Except FfiError TransferOperationBuilder) :
    Store × Option Nat :=
  match lookupBuilder s h with
  | none => (s, none)
  | some b =>
    match f b with
    | Except.error _ => (s, none)
    | Except.ok b2 => (s ++ [b2], some (List.length s))

/-- FFI surface of add_input_with_tracing over the handle store. -/
def ffi_transfer_operation_builder_add_input_with_tracing (s : Store) (h : Nat)
    (txoRef amount : Nat) (assetCode : String) (owner : Nat) : Store × Option Nat :=
  ffiStep s h (fun b => Except.ok (addInput b txoRef amount assetCode owner true))

/-- FFI surface of add_input_no_tracing over the handle store. -/
def ffi_transfer_operation_builder_add_input_no_tracing (s : Store) (h : Nat)
    (txoRef amount : Nat) (assetCode : String) (owner : Nat) : Store × Option Nat :=
  ffiStep s h (fun b => Except.ok (addInput b txoRef amount assetCode owner false))

/-- FFI surface of add_output_with_tracing over the handle store. -/
def ffi_transfer_operation_builder_add_output_with_tracing (s : Store) (h : Nat)
    (amount recipient : Nat) (assetCode : String) (confAmount confType : Bool) :
    Store × Option Nat :=
  ffiStep s h (fun b => Except.ok (addOutput b amount recipient assetCode confAmount confType true))

/-- FFI surface of add_output_no_tracing over the handle store. -/
def ffi_transfer_operation_builder_add_output_no_tracing (s : Store) (h : Nat)
    (amount recipient : Nat) (assetCode : String) (confAmount confType : Bool) :
    Store × Option Nat :=
  ffiStep s h (fun b => Except.ok (addOutput b amount recipient assetCode confAmount confType false))

/-- FFI surface of balance over the handle store. -/
def ffi_transfer_operation_builder_balance (s : Store) (h : Nat) : Store × Option Nat :=
  ffiStep s h findora_ffi_transfer_operation_builder_balance

/-- FFI surface of create over the handle store. -/
def ffi_transfer_operation_builder_create (s : Store) (h : Nat) : Store × Option Nat :=
  ffiStep s h findora_ffi_transfer_operation_builder_create

/-- FFI surface of sign over the handle store. -/
def ffi_transfer_operation_builder_sign (s : Store) (h : Nat) (kp : Nat) : Store × Option Nat :=
  ffiStep s h (fun b => findora_ffi_transfer_operation_builder_sign b kp)

/-- FFI surface of add_cosignature over the handle store. -/
def ffi_transfer_operation_builder_add_cosignature (s : Store) (h : Nat) (kp input_idx : Nat) :
    Store × Option Nat :=
  ffiStep s h (fun b => findora_ffi_transfer_operation_builder_add_cosignature b kp input_idx)

/-! ## Theorems -/

/-- C3: for unsigned 64-bit numerator, denominator and outstanding balance
with the denominator nonzero and the product in range, calculate_fee
returns exactly the ceiling of outstanding_balance * rate_numerator /
rate_denominator (characterized by the two ceiling inequalities, which
determine it uniquely); it fails with ArithmeticOverflow when the product
leaves the 64-bit range, fails with DivisionByZero when the denominator is
zero, and on numerator 1, denominator 1000, outstanding balance 500000 it
yields 500. -/
theorem calculate_fee_spec (n d b : Nat) :
    (d ≠ 0 → b * n < U64_MOD →
      ∃ f, findora_ffi_calculate_fee n d b = Except.ok f
        ∧ b * n ≤ d * f ∧ d * f < b * n + d)
    ∧ (d ≠ 0 → U64_MOD ≤ b * n →
      findora_ffi_calculate_fee n d b = Except.error FfiError.ArithmeticOverflow)
    ∧ (d = 0 → findora_ffi_calculate_fee n d b = Except.error FfiError.DivisionByZero)
    ∧ findora_ffi_calculate_fee 1 1000 500000 = Except.ok 500 := by
  refine ⟨?_, ?_, ?_, by decide⟩
  · intro hd hlt
    have hd0 : 0 < d := Nat.pos_of_ne_zero hd
    refine ⟨(b * n + d - 1) / d, ?_, ?_, ?_⟩
    · simp only [findora_ffi_calculate_fee, if_neg hd, if_neg (not_le.mpr hlt)]
    · have h1 := Nat.div_add_mod (b * n + d - 1) d
      have h2 : (b * n + d - 1) % d < d := Nat.mod_lt _ hd0
      omega
    · have h1 := Nat.div_add_mod (b * n + d - 1) d
      have h2 : (b * n + d - 1) % d < d := Nat.mod_lt _ hd0
      omega
  · intro hd hge
    simp only [findora_ffi_calculate_fee, if_neg hd, if_pos hge]
  · intro hd
    simp only [findora_ffi_calculate_fee, if_pos hd]

/-- Witness for C3: a concrete in-range instance, numerator 3,
denominator 2, outstanding balance 7. -/
theorem calculate_fee_spec_witness :
    ∃ f, findora_ffi_calculate_fee 3 2 7 = Except.ok f
      ∧ 7 * 3 ≤ 2 * f ∧ 2 * f < 7 * 3 + 2 :=
  (calculate_fee_spec 3 2 7).1 (by decide) (by decide)

theorem encodeList_inj : ∀ l1 l2 : List Nat, encodeList l1 = encodeList l2 → l1 = l2 := by
  intro l1
  induction l1 with
  | nil =>
    intro l2 h
    cases l2 with
    | nil => rfl
    | cons a t => simp [encodeList] at h
  | cons a t ih =>
    intro l2 h
    cases l2 with
    | nil => simp [encodeList] at h
    | cons a2 t2 =>
      have h2 : Nat.pair a (encodeList t) = Nat.pair a2 (encodeList t2) := by
        simpa [encodeList] using h
      rcases Nat.pair_eq_pair.mp h2 with ⟨ha, ht⟩
      rw [ha, ih t2 ht]

theorem le_chainRoot (path : List Nat) (acc : Nat) : acc ≤ chainRoot acc path := by
  induction path generalizing acc with
  | nil => exact Nat.le_refl acc
  | cons s rest ih =>
    calc acc ≤ Nat.pair acc s + 1 :=
          Nat.le_trans (Nat.left_le_pair acc s) (Nat.le_succ _)
    _ ≤ chainRoot (Nat.pair acc s + 1) rest := ih _
    _ = chainRoot acc (s :: rest) := rfl

theorem chainRoot_append (acc : Nat) (p : List Nat) (s : Nat) :
    chainRoot acc (p ++ [s]) = Nat.pair (chainRoot acc p) s + 1 := by
  induction p generalizing acc with
  | nil => rfl
  | cons a t ih => simp [chainRoot, ih]

theorem chainRoot_leaf_inj : ∀ (p1 : List Nat) (p2 : List Nat) (e1 e2 : Nat),
    chainRoot (Nat.pair 0 e1 + 1) p1 = chainRoot (Nat.pair 0 e2 + 1) p2 →
    e1 = e2 ∧ p1 = p2 := by
  intro p1
  induction p1 using List.reverseRecOn with
  | nil =>
    intro p2 e1 e2 h
    cases p2 using List.reverseRecOn with
    | nil =>
      simp only [chainRoot] at h
      exact ⟨(Nat.pair_eq_pair.mp (Nat.succ_injective h)).2, rfl⟩
    | append_singleton p s =>
      rw [chainRoot_append] at h
      have h2 := Nat.pair_eq_pair.mp (Nat.succ_injective h)
      have h3 := le_chainRoot p (Nat.pair 0 e2 + 1)
      omega
  | append_singleton p1 s1 ih =>
    intro p2 e1 e2 h
    cases p2 using List.reverseRecOn with
    | nil =>
      rw [chainRoot_append] at h
      have h2 := Nat.pair_eq_pair.mp (Nat.succ_injective h)
      have h3 := le_chainRoot p1 (Nat.pair 0 e1 + 1)
      omega
    | append_singleton p2 s2 =>
      rw [chainRoot_append, chainRoot_append] at h
      have h2 := Nat.pair_eq_pair.mp (Nat.succ_injective h)
      rcases ih p2 e1 e2 h2.1 with ⟨he, hp⟩
      exact ⟨he, by rw [hp, h2.2]⟩

theorem recomputeRoot_inj (p q : AuthenticatedTxn)
    (h : recomputeRoot p = recomputeRoot q) : p = q := by
  rcases p with ⟨t1, s1⟩
  rcases q with ⟨t2, s2⟩
  simp only [recomputeRoot, leafHash] at h
  rcases chainRoot_leaf_inj s1 s2 (encodeList t1) (encodeList t2) h with ⟨he, hp⟩
  rw [encodeList_inj t1 t2 he, hp]

theorem parseProof_ok_eq (bytes : List Nat) (a : AuthenticatedTxn)
    (h : parseProof bytes = Except.ok a) :
    bytes = a.txn.length :: (a.txn ++ a.path) := by
  cases bytes with
  | nil => simp [parseProof] at h
  | cons len rest =>
    by_cases hle : len ≤ rest.length
    · simp only [parseProof, if_pos hle, Except.ok.injEq] at h
      rw [← h]
      simp [List.length_take, Nat.min_eq_left hle]
    · simp [parseProof, if_neg hle] at h

theorem parseProof_error_eq (bytes : List Nat) (e : FfiError)
    (h : parseProof bytes = Except.error e) : e = FfiError.MalformedProof := by
  cases bytes with
  | nil =>
    simp only [parseProof, Except.error.injEq] at h
    exact h.symm
  | cons len rest =>
    by_cases hle : len ≤ rest.length
    · simp [parseProof, if_pos hle] at h
    · simp only [parseProof, if_neg hle, Except.error.injEq] at h
      exact h.symm

/-- C2: verify_authenticated_txn returns true exactly when the root
recomputed from the deserialized transaction bytes and sibling path equals
the supplied state commitment, returns false exactly when it differs, and
on a proof that fails to deserialize it fails with the distinct
MalformedProof error — the only error it ever produces — rather than
returning false. -/
theorem verify_authenticated_txn_spec (c : Nat) (bytes : List Nat) :
    (∀ p, parseProof bytes = Except.ok p →
      ((findora_ffi_verify_authenticated_txn c bytes = Except.ok true
          ↔ recomputeRoot p = c)
        ∧ (findora_ffi_verify_authenticated_txn c bytes = Except.ok false
          ↔ recomputeRoot p ≠ c)))
    ∧ (∀ e, parseProof bytes = Except.error e →
      e = FfiError.MalformedProof
        ∧ findora_ffi_verify_authenticated_txn c bytes
            = Except.error FfiError.MalformedProof) := by
  constructor
  · intro p hp
    constructor
    · simp [findora_ffi_verify_authenticated_txn, hp]
    · simp [findora_ffi_verify_authenticated_txn, hp]
  · intro e he
    have hm := parseProof_error_eq bytes e he
    subst hm
    constructor
    · rfl
    · simp [findora_ffi_verify_authenticated_txn, he]

/-- Witness for C2: the three-byte proof 1, 7, 5 parses to transaction
bytes 7 with sibling path 5 and verifies true against its own recomputed
root. -/
theorem verify_authenticated_txn_spec_witness :
    findora_ffi_verify_authenticated_txn (recomputeRoot ⟨[7], [5]⟩) [1, 7, 5]
      = Except.ok true :=
  (((verify_authenticated_txn_spec (recomputeRoot ⟨[7], [5]⟩) [1, 7, 5]).1
    ⟨[7], [5]⟩ (by decide)).1).mpr rfl

/-- C8: verify_authenticated_txn is deterministic — two invocations on the
same commitment and proof bytes agree, as the operation is a pure function
of its arguments — and flipping any single byte of a proof that verifies
true makes verification return false, or fail with MalformedProof when the
flip makes the buffer structurally invalid. -/
theorem verify_authenticated_txn_deterministic_flip (c : Nat) (bytes : List Nat) (i v : Nat) :
    findora_ffi_verify_authenticated_txn c bytes
        = findora_ffi_verify_authenticated_txn c bytes
    ∧ (findora_ffi_verify_authenticated_txn c bytes = Except.ok true →
      i < bytes.length → bytes[i]? ≠ some v →
      findora_ffi_verify_authenticated_txn c (bytes.set i v) = Except.ok false
        ∨ findora_ffi_verify_authenticated_txn c (bytes.set i v)
            = Except.error FfiError.MalformedProof) := by
  refine ⟨rfl, ?_⟩
  intro htrue hi hv
  cases hp : parseProof bytes with
  | error e => simp [findora_ffi_verify_authenticated_txn, hp] at htrue
  | ok p =>
    have hroot : recomputeRoot p = c := by
      simpa [findora_ffi_verify_authenticated_txn, hp] using htrue
    cases hq : parseProof (bytes.set i v) with
    | error e =>
      right
      rw [parseProof_error_eq _ e hq] at hq
      simp [findora_ffi_verify_authenticated_txn, hq]
    | ok q =>
      left
      have hqc : recomputeRoot q ≠ c := by
        intro hqc
        have hpq : q = p := recomputeRoot_inj q p (by rw [hqc, hroot])
        have hb1 := parseProof_ok_eq bytes p hp
        have hb2 := parseProof_ok_eq (bytes.set i v) q hq
        rw [hpq] at hb2
        have hsame : bytes.set i v = bytes := hb2.trans hb1.symm
        have hgot : (bytes.set i v)[i]? = some v := List.getElem?_set_eq_of_lt v hi
        rw [hsame] at hgot
        exact hv hgot
      simp [findora_ffi_verify_authenticated_txn, hq, hqc]

/-- Witness for C8: flipping the middle byte of the valid three-byte proof
1, 7, 5 to 8 makes verification against the original root reject. -/
theorem verify_authenticated_txn_deterministic_flip_witness :
    findora_ffi_verify_authenticated_txn (recomputeRoot ⟨[7], [5]⟩) ([1, 7, 5].set 1 8)
        = Except.ok false
      ∨ findora_ffi_verify_authenticated_txn (recomputeRoot ⟨[7], [5]⟩) ([1, 7, 5].set 1 8)
        = Except.error FfiError.MalformedProof :=
  (verify_authenticated_txn_deterministic_flip
    (recomputeRoot ⟨[7], [5]⟩) [1, 7, 5] 1 8).2 (by decide) (by decide) (by decide)

/-- C4: opening a record produced for a known amount and asset-type pair
with the matching memo and owning key pair returns an OpenAssetRecord
carrying the original amount and asset type (with the record-type tag of
the chosen confidentiality flags); opening with a key pair that does not
own the record fails with RecordMismatch, as does a missing memo when a
field is hidden, and a memo whose blinding data mismatches the hidden
amount or the hidden asset type. -/
theorem open_client_asset_record_spec (amount assetType owner kp bA bT : Nat)
    (confAmount confType : Bool) :
    (findora_ffi_open_client_asset_record
        (encryptRecord amount assetType owner confAmount confType bA bT).1
        (encryptRecord amount assetType owner confAmount confType bA bT).2 owner
      = Except.ok ⟨amount, assetType, owner, recordTypeOfFlags confAmount confType⟩)
    ∧ (kp ≠ owner →
      findora_ffi_open_client_asset_record
        (encryptRecord amount assetType owner confAmount confType bA bT).1
        (encryptRecord amount assetType owner confAmount confType bA bT).2 kp
      = Except.error FfiError.RecordMismatch)
    ∧ ((confAmount = true ∨ confType = true) →
      findora_ffi_open_client_asset_record
        (encryptRecord amount assetType owner confAmount confType bA bT).1 none owner
      = Except.error FfiError.RecordMismatch)
    ∧ (∀ m : OwnerMemo, confAmount = true →
      (m.amount, m.blindAmount) ≠ (amount, bA) →
      findora_ffi_open_client_asset_record
        (encryptRecord amount assetType owner confAmount confType bA bT).1 (some m) owner
      = Except.error FfiError.RecordMismatch)
    ∧ (∀ m : OwnerMemo, confType = true →
      (m.assetType, m.blindType) ≠ (assetType, bT) →
      findora_ffi_open_client_asset_record
        (encryptRecord amount assetType owner confAmount confType bA bT).1 (some m) owner
      = Except.error FfiError.RecordMismatch) := by
  refine ⟨?_, ?_, ?_, ?_, ?_⟩
  · cases confAmount <;> cases confType <;>
      simp [encryptRecord, findora_ffi_open_client_asset_record, recordTypeOfFlags]
  · intro hkp
    have h2 : owner ≠ kp := Ne.symm hkp
    cases confAmount <;> cases confType <;>
      simp [encryptRecord, findora_ffi_open_client_asset_record, h2]
  · intro hconf
    cases confAmount <;> cases confType
    · simp at hconf
    · simp [encryptRecord, findora_ffi_open_client_asset_record]
    · simp [encryptRecord, findora_ffi_open_client_asset_record]
    · simp [encryptRecord, findora_ffi_open_client_asset_record]
  · intro m hcA hm
    have hm2 : ¬(m.amount = amount ∧ m.blindAmount = bA) := by
      intro h
      exact hm (by rw [h.1, h.2])
    subst hcA
    cases confType <;>
      simp [encryptRecord, findora_ffi_open_client_asset_record, commit,
        Nat.pair_eq_pair, hm2]
  · intro m hcT hm
    have hm2 : ¬(m.assetType = assetType ∧ m.blindType = bT) := by
      intro h
      exact hm (by rw [h.1, h.2])
    subst hcT
    cases confAmount <;>
      simp [encryptRecord, findora_ffi_open_client_asset_record, commit,
        Nat.pair_eq_pair, hm2]

/-- Witness for C4: opening the fully confidential record for amount 5 of
asset type 9 owned by key 1 with the non-owning key 2 fails with
RecordMismatch. -/
theorem open_client_asset_record_spec_witness :
    findora_ffi_open_client_asset_record
      (encryptRecord 5 9 1 true true 3 4).1 (encryptRecord 5 9 1 true true 3 4).2 2
      = Except.error FfiError.RecordMismatch :=
  ((open_client_asset_record_spec 5 9 1 2 3 4 true true).2).1 (by decide)

/-- C10: get_record_type always returns a value in the closed set 0, 1, 2,
3, with 0 exactly for NonConfidentialAmount_ConfidentialAssetType, 1
exactly for ConfidentialAmount_NonConfidentialAssetType, 2 exactly for
ConfidentialAmount_ConfidentialAssetType, and 3 exactly for
NonConfidentialAmount_NonConfidentialAssetType, as enumerated in the
header. -/
theorem get_record_type_range (r : OpenAssetRecord) :
    (findora_ffi_open_client_asset_record_get_record_type r = 0
      ∨ findora_ffi_open_client_asset_record_get_record_type r = 1
      ∨ findora_ffi_open_client_asset_record_get_record_type r = 2
      ∨ findora_ffi_open_client_asset_record_get_record_type r = 3)
    ∧ (findora_ffi_open_client_asset_record_get_record_type r = 0
      ↔ r.recordType = AssetRecordType.NonConfidentialAmount_ConfidentialAssetType)
    ∧ (findora_ffi_open_client_asset_record_get_record_type r = 1
      ↔ r.recordType = AssetRecordType.ConfidentialAmount_NonConfidentialAssetType)
    ∧ (findora_ffi_open_client_asset_record_get_record_type r = 2
      ↔ r.recordType = AssetRecordType.ConfidentialAmount_ConfidentialAssetType)
    ∧ (findora_ffi_open_client_asset_record_get_record_type r = 3
      ↔ r.recordType = AssetRecordType.NonConfidentialAmount_NonConfidentialAssetType) := by
  rcases r with ⟨a, t, o, rt⟩
  cases rt <;>
    simp [findora_ffi_open_client_asset_record_get_record_type, AssetRecordType.toInt]

theorem sumOutputAmounts_outputs_append (b b2 : TransferOperationBuilder)
    (outs : List BuilderOutput) (h : b2.outputs = b.outputs ++ outs) (c : String) :
    sumOutputAmounts b2 c
      = sumOutputAmounts b c
        + (((outs.filter fun o => o.assetCode = c).map fun o => o.amount).sum) := by
  simp [sumOutputAmounts, h, List.filter_append, List.map_append, List.sum_append]

theorem filter_filterMap_by_code (l : List String) (f : String → Option BuilderOutput)
    (hf : ∀ c o, f c = some o → o.assetCode = c) (c : String) (hl : l.Nodup) :
    (l.filterMap f).filter (fun o => o.assetCode = c)
      = if c ∈ l then (f c).toList else [] := by
  induction l with
  | nil => simp
  | cons a t ih =>
    rcases List.nodup_cons.mp hl with ⟨ha, ht⟩
    cases hfa : f a with
    | none =>
      rw [List.filterMap_cons_none hfa, ih ht]
      by_cases hc : c = a
      · subst hc
        simp [ha, hfa]
      · simp [List.mem_cons, hc]
    | some o =>
      have hoa : o.assetCode = a := hf a o hfa
      rw [List.filterMap_cons_some hfa, List.filter_cons, ih ht]
      by_cases hc : c = a
      · subst hc
        simp [hoa, ha, hfa]
      · have hoc : ¬(o.assetCode = c) := by rw [hoa]; exact fun h2 => hc h2.symm
        simp [List.mem_cons, hc, hoc]

theorem changeOutputs_filter (b : TransferOperationBuilder) (c : String) :
    (changeOutputs b).filter (fun o => o.assetCode = c)
      = if c ∈ inputCodes b ∧ 0 < surplusOf b c then
          [⟨surplusOf b c, ((inputOwners b c).head?).getD 0, c,
            majorityConfAmount b c, majorityConfType b c, false⟩]
        else [] := by
  have hf : ∀ c2 o,
      (if 0 < surplusOf b c2 then
        some (⟨surplusOf b c2, ((inputOwners b c2).head?).getD 0, c2,
          majorityConfAmount b c2, majorityConfType b c2, false⟩ : BuilderOutput)
      else none) = some o → o.assetCode = c2 := by
    intro c2 o h
    by_cases h2 : 0 < surplusOf b c2
    · rw [if_pos h2, Option.some.injEq] at h
      rw [← h]
    · rw [if_neg h2] at h
      exact absurd h (by simp)
  rw [changeOutputs, filter_filterMap_by_code (inputCodes b) _ hf c (List.nodup_dedup _)]
  by_cases h1 : c ∈ inputCodes b
  · by_cases h2 : 0 < surplusOf b c
    · simp [h1, h2]
    · simp [h1, h2]
  · simp [h1]

theorem balance_ok_destruct (b b2 : TransferOperationBuilder)
    (h : findora_ffi_transfer_operation_builder_balance b = Except.ok b2) :
    (∀ c ∈ inputCodes b, sumOutputAmounts b c ≤ sumInputAmounts b c)
    ∧ (∀ c ∈ inputCodes b, 0 < surplusOf b c → (inputOwners b c).length ≤ 1)
    ∧ b2 = { b with
        outputs := b.outputs ++ changeOutputs b,
        balancedFingerprint := some (b.inputs, b.outputs ++ changeOutputs b) } := by
  rw [findora_ffi_transfer_operation_builder_balance] at h
  by_cases h1 : ((inputCodes b).any
      fun c => decide (sumInputAmounts b c < sumOutputAmounts b c)) = true
  · rw [if_pos h1] at h
    exact absurd h (by simp)
  · rw [if_neg h1] at h
    by_cases h2 : ((inputCodes b).any
        fun c => decide (0 < surplusOf b c) && decide (1 < (inputOwners b c).length)) = true
    · rw [if_pos h2] at h
      exact absurd h (by simp)
    · rw [if_neg h2] at h
      refine ⟨?_, ?_, ?_⟩
      · intro c hc
        by_contra hlt
        rw [not_le] at hlt
        exact h1 (List.any_eq_true.mpr ⟨c, hc, by simpa using hlt⟩)
      · intro c hc hs
        by_contra hlen
        rw [not_le] at hlen
        exact h2 (List.any_eq_true.mpr ⟨c, hc, by simp [hs, hlen]⟩)
      · rw [Except.ok.injEq] at h
        exact h.symm

theorem balance_ok_sum_eq (b b2 : TransferOperationBuilder)
    (h : findora_ffi_transfer_operation_builder_balance b = Except.ok b2)
    (c : String) (hc : c ∈ inputCodes b) :
    sumOutputAmounts b2 c = sumInputAmounts b c := by
  rcases balance_ok_destruct b b2 h with ⟨hle, _, hb2⟩
  have hout : b2.outputs = b.outputs ++ changeOutputs b := by rw [hb2]
  have hsum := sumOutputAmounts_outputs_append b b2 (changeOutputs b) hout c
  rw [changeOutputs_filter] at hsum
  have hlec := hle c hc
  by_cases h2 : 0 < surplusOf b c
  · rw [if_pos ⟨hc, h2⟩] at hsum
    simp only [List.map_cons, List.map_nil, List.sum_cons, List.sum_nil] at hsum
    rw [surplusOf] at hsum
    omega
  · rw [if_neg (fun hand => h2 hand.2)] at hsum
    simp only [List.map_nil, List.sum_nil] at hsum
    rw [surplusOf] at h2
    omega

/-- C1: for every builder on which balance succeeds and every asset-type
code among its inputs, the sum of output amounts of that code — including
the synthesized change output — equals the sum of input amounts of that
code.  The builder holds no separate fee field: per the specification a
fee is paid through ordinary fee inputs and outputs flowing through this
same balance check, so the claim's fee term is the zero external summand
of this conservation equation. -/
theorem balance_conservation (b b2 : TransferOperationBuilder) (c : String)
    (hb : findora_ffi_transfer_operation_builder_balance b = Except.ok b2)
    (hc : c ∈ inputCodes b2) :
    sumOutputAmounts b2 c = sumInputAmounts b2 c := by
  rcases balance_ok_destruct b b2 hb with ⟨_, _, hb2⟩
  have hin : b2.inputs = b.inputs := by rw [hb2]
  have hcodes : inputCodes b2 = inputCodes b := by simp [inputCodes, hin]
  have hsumin : sumInputAmounts b2 c = sumInputAmounts b c := by
    simp [sumInputAmounts, hin]
  rw [hsumin, balance_ok_sum_eq b b2 hb c (hcodes ▸ hc)]

/-- Witness for C1: one input of 100 units of asset X owned by key 1 and
one output of 60 units to key 2 balance into outputs summing to 100 after
the 40-unit change output is synthesized. -/
theorem balance_conservation_witness :
    sumOutputAmounts
      ⟨[⟨0, 100, "X", 1, false⟩],
        [⟨60, 2, "X", false, false, false⟩, ⟨40, 1, "X", false, false, false⟩],
        some ([⟨0, 100, "X", 1, false⟩],
          [⟨60, 2, "X", false, false, false⟩, ⟨40, 1, "X", false, false, false⟩]),
        false, [], []⟩ "X"
      = sumInputAmounts
      ⟨[⟨0, 100, "X", 1, false⟩],
        [⟨60, 2, "X", false, false, false⟩, ⟨40, 1, "X", false, false, false⟩],
        some ([⟨0, 100, "X", 1, false⟩],
          [⟨60, 2, "X", false, false, false⟩, ⟨40, 1, "X", false, false, false⟩]),
        false, [], []⟩ "X" :=
  balance_conservation
    ⟨[⟨0, 100, "X", 1, false⟩], [⟨60, 2, "X", false, false, false⟩], none, false, [], []⟩
    ⟨[⟨0, 100, "X", 1, false⟩],
      [⟨60, 2, "X", false, false, false⟩, ⟨40, 1, "X", false, false, false⟩],
      some ([⟨0, 100, "X", 1, false⟩],
        [⟨60, 2, "X", false, false, false⟩, ⟨40, 1, "X", false, false, false⟩]),
      false, [], []⟩
    "X" (by decide) (by decide)

/-- C5: balance fails with Unbalanced whenever some input asset-type code
is overspent by the outputs; when no code is overspent it fails with
AmbiguousChangeOwner whenever some code with a positive surplus has inputs
owned by more than one key; and when neither failure applies it succeeds,
transitioning the builder to the balanced state in which the captured
fingerprint matches the current inputs and outputs. -/
theorem balance_error_spec (b : TransferOperationBuilder) :
    ((∃ c ∈ inputCodes b, sumInputAmounts b c < sumOutputAmounts b c) →
      findora_ffi_transfer_operation_builder_balance b
        = Except.error FfiError.Unbalanced)
    ∧ ((∀ c ∈ inputCodes b, sumOutputAmounts b c ≤ sumInputAmounts b c) →
      (∃ c ∈ inputCodes b, sumOutputAmounts b c < sumInputAmounts b c
        ∧ 1 < (inputOwners b c).length) →
      findora_ffi_transfer_operation_builder_balance b
        = Except.error FfiError.AmbiguousChangeOwner)
    ∧ ((∀ c ∈ inputCodes b, sumOutputAmounts b c ≤ sumInputAmounts b c) →
      (∀ c ∈ inputCodes b, sumOutputAmounts b c < sumInputAmounts b c →
        (inputOwners b c).length = 1) →
      ∃ b2, findora_ffi_transfer_operation_builder_balance b = Except.ok b2
        ∧ b2.balancedFingerprint = some (b2.inputs, b2.outputs)) := by
  refine ⟨?_, ?_, ?_⟩
  · rintro ⟨c, hc, hlt⟩
    rw [findora_ffi_transfer_operation_builder_balance,
      if_pos (List.any_eq_true.mpr ⟨c, hc, by simpa using hlt⟩)]
  · rintro hle ⟨c, hc, hlt, hown⟩
    have h1 : ¬ ((inputCodes b).any
        fun c => decide (sumInputAmounts b c < sumOutputAmounts b c)) = true := by
      intro hany
      rcases List.any_eq_true.mp hany with ⟨c2, hc2, hdec⟩
      have := hle c2 hc2
      simp only [decide_eq_true_iff] at hdec
      omega
    have hcond : (decide (0 < surplusOf b c)
        && decide (1 < (inputOwners b c).length)) = true := by
      simp only [Bool.and_eq_true, decide_eq_true_iff]
      refine ⟨?_, hown⟩
      rw [surplusOf]
      omega
    rw [findora_ffi_transfer_operation_builder_balance, if_neg h1,
      if_pos (List.any_eq_true.mpr ⟨c, hc, hcond⟩)]
  · intro hle hown
    have h1 : ¬ ((inputCodes b).any
        fun c => decide (sumInputAmounts b c < sumOutputAmounts b c)) = true := by
      intro hany
      rcases List.any_eq_true.mp hany with ⟨c2, hc2, hdec⟩
      have := hle c2 hc2
      simp only [decide_eq_true_iff] at hdec
      omega
    have h2 : ¬ ((inputCodes b).any
        fun c => decide (0 < surplusOf b c)
          && decide (1 < (inputOwners b c).length)) = true := by
      intro hany
      rcases List.any_eq_true.mp hany with ⟨c2, hc2, hdec⟩
      simp only [Bool.and_eq_true, decide_eq_true_iff] at hdec
      rw [surplusOf] at hdec
      have hlen := hown c2 hc2 (by omega)
      omega
    rw [findora_ffi_transfer_operation_builder_balance, if_neg h1, if_neg h2]
    exact ⟨_, rfl, rfl⟩

/-- Witness for C5: a builder spending 20 units of asset X from a 10-unit
input fails with Unbalanced. -/
theorem balance_error_spec_witness :
    findora_ffi_transfer_operation_builder_balance
      ⟨[⟨0, 10, "X", 1, false⟩], [⟨20, 2, "X", false, false, false⟩], none, false, [], []⟩
      = Except.error FfiError.Unbalanced :=
  (balance_error_spec
    ⟨[⟨0, 10, "X", 1, false⟩], [⟨20, 2, "X", false, false, false⟩],
      none, false, [], []⟩).1 ⟨"X", by decide, by decide⟩

/-- C6: create fails with NotBalanced whenever the fingerprint captured at
balance time does not match the current inputs and outputs — in
particular on a fresh builder, whose fingerprint is absent, and on any
builder mutated by add_input or add_output after a successful balance —
and transaction fails with IncompleteSignatures whenever some input owner
has not signed. -/
theorem create_transaction_precondition_spec (b : TransferOperationBuilder) :
    (b.balancedFingerprint ≠ some (b.inputs, b.outputs) →
      findora_ffi_transfer_operation_builder_create b
        = Except.error FfiError.NotBalanced)
    ∧ TransferOperationBuilder.new.balancedFingerprint = none
    ∧ (∀ b2 txoRef amount assetCode owner hasTracing,
      findora_ffi_transfer_operation_builder_balance b = Except.ok b2 →
      findora_ffi_transfer_operation_builder_create
        (addInput b2 txoRef amount assetCode owner hasTracing)
        = Except.error FfiError.NotBalanced)
    ∧ (∀ b2 amount recipient assetCode confAmount confType hasTracing,
      findora_ffi_transfer_operation_builder_balance b = Except.ok b2 →
      findora_ffi_transfer_operation_builder_create
        (addOutput b2 amount recipient assetCode confAmount confType hasTracing)
        = Except.error FfiError.NotBalanced)
    ∧ ((∃ i ∈ b.inputs, i.owner ∉ b.signatures) →
      findora_ffi_transfer_operation_builder_transaction b
        = Except.error FfiError.IncompleteSignatures) := by
  refine ⟨?_, rfl, ?_, ?_, ?_⟩
  · intro h
    rw [findora_ffi_transfer_operation_builder_create, if_neg h]
  · intro b2 txoRef amount assetCode owner hasTracing hb
    rcases balance_ok_destruct b b2 hb with ⟨_, _, hb2⟩
    have h1 : b2.balancedFingerprint = some (b2.inputs, b2.outputs) := by rw [hb2]
    have h2 : ¬ ((addInput b2 txoRef amount assetCode owner hasTracing).balancedFingerprint
        = some ((addInput b2 txoRef amount assetCode owner hasTracing).inputs,
          (addInput b2 txoRef amount assetCode owner hasTracing).outputs)) := by
      simp only [addInput, h1]
      simp [List.self_eq_append_right]
    rw [findora_ffi_transfer_operation_builder_create, if_neg h2]
  · intro b2 amount recipient assetCode confAmount confType hasTracing hb
    rcases balance_ok_destruct b b2 hb with ⟨_, _, hb2⟩
    have h1 : b2.balancedFingerprint = some (b2.inputs, b2.outputs) := by rw [hb2]
    have h2 : ¬ ((addOutput b2 amount recipient assetCode confAmount confType
          hasTracing).balancedFingerprint
        = some ((addOutput b2 amount recipient assetCode confAmount confType
            hasTracing).inputs,
          (addOutput b2 amount recipient assetCode confAmount confType
            hasTracing).outputs)) := by
      simp only [addOutput, h1]
      simp [List.self_eq_append_right]
    rw [findora_ffi_transfer_operation_builder_create, if_neg h2]
  · rintro ⟨i, hi, hmem⟩
    have hall : ¬ (b.inputs.all fun i => decide (i.owner ∈ b.signatures)) = true := by
      intro hall
      exact hmem (of_decide_eq_true (List.all_eq_true.mp hall i hi))
    rw [findora_ffi_transfer_operation_builder_transaction, if_neg hall]

/-- Witness for C6: create on a fresh builder fails with NotBalanced. -/
theorem create_transaction_precondition_spec_witness :
    findora_ffi_transfer_operation_builder_create TransferOperationBuilder.new
      = Except.error FfiError.NotBalanced :=
  (create_transaction_precondition_spec TransferOperationBuilder.new).1 (by decide)

/-- C7: balance is idempotent — after a successful balance the builder
synthesizes no further change outputs, and invoking balance again with no
intervening add_input or add_output returns the very same builder, with
its input and output lists unchanged. -/
theorem balance_idempotent (b b2 : TransferOperationBuilder)
    (hb : findora_ffi_transfer_operation_builder_balance b = Except.ok b2) :
    changeOutputs b2 = []
    ∧ findora_ffi_transfer_operation_builder_balance b2 = Except.ok b2 := by
  rcases balance_ok_destruct b b2 hb with ⟨hle, hown, hb2⟩
  have hin : b2.inputs = b.inputs := by rw [hb2]
  have hcodes : inputCodes b2 = inputCodes b := by simp [inputCodes, hin]
  have hsum : ∀ c ∈ inputCodes b2, sumOutputAmounts b2 c = sumInputAmounts b2 c := by
    intro c hc
    have hsumin : sumInputAmounts b2 c = sumInputAmounts b c := by
      simp [sumInputAmounts, hin]
    rw [hsumin, balance_ok_sum_eq b b2 hb c (hcodes ▸ hc)]
  have hzero : ∀ c ∈ inputCodes b2, surplusOf b2 c = 0 := by
    intro c hc
    have := hsum c hc
    rw [surplusOf]
    omega
  have hchange : changeOutputs b2 = [] := by
    rw [changeOutputs, List.filterMap_eq_nil_iff]
    intro c hc
    rw [if_neg]
    simp [hzero c hc]
  refine ⟨hchange, ?_⟩
  have h1 : ¬ ((inputCodes b2).any
      fun c => decide (sumInputAmounts b2 c < sumOutputAmounts b2 c)) = true := by
    intro hany
    rcases List.any_eq_true.mp hany with ⟨c, hc, hdec⟩
    simp only [decide_eq_true_iff] at hdec
    have := hsum c hc
    omega
  have h2 : ¬ ((inputCodes b2).any
      fun c => decide (0 < surplusOf b2 c)
        && decide (1 < (inputOwners b2 c).length)) = true := by
    intro hany
    rcases List.any_eq_true.mp hany with ⟨c, hc, hdec⟩
    simp only [Bool.and_eq_true, decide_eq_true_iff] at hdec
    have := hzero c hc
    omega
  have hfp : b2.balancedFingerprint = some (b2.inputs, b2.outputs) := by rw [hb2]
  rw [findora_ffi_transfer_operation_builder_balance, if_neg h1, if_neg h2,
    hchange, List.append_nil, ← hfp]

/-- Witness for C7: re-balancing the already balanced one-input,
one-output, one-change builder of asset X is a no-op. -/
theorem balance_idempotent_witness :
    changeOutputs
      ⟨[⟨0, 100, "X", 1, false⟩],
        [⟨60, 2, "X", false, false, false⟩, ⟨40, 1, "X", false, false, false⟩],
        some ([⟨0, 100, "X", 1, false⟩],
          [⟨60, 2, "X", false, false, false⟩, ⟨40, 1, "X", false, false, false⟩]),
        false, [], []⟩ = []
    ∧ findora_ffi_transfer_operation_builder_balance
      ⟨[⟨0, 100, "X", 1, false⟩],
        [⟨60, 2, "X", false, false, false⟩, ⟨40, 1, "X", false, false, false⟩],
        some ([⟨0, 100, "X", 1, false⟩],
          [⟨60, 2, "X", false, false, false⟩, ⟨40, 1, "X", false, false, false⟩]),
        false, [], []⟩
      = Except.ok
      ⟨[⟨0, 100, "X", 1, false⟩],
        [⟨60, 2, "X", false, false, false⟩, ⟨40, 1, "X", false, false, false⟩],
        some ([⟨0, 100, "X", 1, false⟩],
          [⟨60, 2, "X", false, false, false⟩, ⟨40, 1, "X", false, false, false⟩]),
        false, [], []⟩ :=
  balance_idempotent
    ⟨[⟨0, 100, "X", 1, false⟩], [⟨60, 2, "X", false, false, false⟩], none, false, [], []⟩
    ⟨[⟨0, 100, "X", 1, false⟩],
      [⟨60, 2, "X", false, false, false⟩, ⟨40, 1, "X", false, false, false⟩],
      some ([⟨0, 100, "X", 1, false⟩],
        [⟨60, 2, "X", false, false, false⟩, ⟨40, 1, "X", false, false, false⟩]),
      false, [], []⟩
    (by decide)

theorem ffiStep_frame (s : Store) (h : Nat)
    (f : TransferOperationBuilder → Except FfiError TransferOperationBuilder)
    (i : Nat) (hi : i < List.length s) : (ffiStep s h f).1[i]? = s[i]? := by
  cases hl : lookupBuilder s h with
  | none => simp [ffiStep, hl]
  | some b =>
    cases hf : f b with
    | error e => simp [ffiStep, hl, hf]
    | ok b2 => simp [ffiStep, hl, hf, List.getElem?_append_left hi]

theorem ffiStep_fresh (s : Store) (h : Nat)
    (f : TransferOperationBuilder → Except FfiError TransferOperationBuilder)
    (b b2 : TransferOperationBuilder) (hl : lookupBuilder s h = some b)
    (hf : f b = Except.ok b2) :
    (ffiStep s h f).2 = some (List.length s)
    ∧ (ffiStep s h f).1[List.length s]? = some b2 := by
  refine ⟨by simp [ffiStep, hl, hf], ?_⟩
  simp only [ffiStep, hl, hf]
  exact List.getElem?_concat_length s b2

/-- C9: every mutating builder entry point of the FFI surface —
add_input (both variants), add_output (both variants), balance, create,
sign, add_cosignature — reads the builder behind its const-pointer
argument and returns a fresh handle to the continued builder: every
previously live handle of the store, in particular the builder passed in,
still resolves to the same builder value afterwards (so its debug and
builder projections are unchanged), and on success the returned fresh
handle resolves to the continuation. -/
theorem ffi_builder_ops_frame (s : Store)
    (h txoRef amount recipient kp input_idx i : Nat) (assetCode : String)
    (confAmount confType : Bool) :
    (i < List.length s →
      (ffi_transfer_operation_builder_add_input_with_tracing
        s h txoRef amount assetCode kp).1[i]? = s[i]?)
    ∧ (i < List.length s →
      (ffi_transfer_operation_builder_add_input_no_tracing
        s h txoRef amount assetCode kp).1[i]? = s[i]?)
    ∧ (i < List.length s →
      (ffi_transfer_operation_builder_add_output_with_tracing
        s h amount recipient assetCode confAmount confType).1[i]? = s[i]?)
    ∧ (i < List.length s →
      (ffi_transfer_operation_builder_add_output_no_tracing
        s h amount recipient assetCode confAmount confType).1[i]? = s[i]?)
    ∧ (i < List.length s →
      (ffi_transfer_operation_builder_balance s h).1[i]? = s[i]?)
    ∧ (i < List.length s →
      (ffi_transfer_operation_builder_create s h).1[i]? = s[i]?)
    ∧ (i < List.length s →
      (ffi_transfer_operation_builder_sign s h kp).1[i]? = s[i]?)
    ∧ (i < List.length s →
      (ffi_transfer_operation_builder_add_cosignature s h kp input_idx).1[i]? = s[i]?)
    ∧ (∀ f b b2, lookupBuilder s h = some b → f b = Except.ok b2 →
      (ffiStep s h f).2 = some (List.length s)
        ∧ (ffiStep s h f).1[List.length s]? = some b2) := by
  exact ⟨fun hi => ffiStep_frame s h _ i hi,
    fun hi => ffiStep_frame s h _ i hi,
    fun hi => ffiStep_frame s h _ i hi,
    fun hi => ffiStep_frame s h _ i hi,
    fun hi => ffiStep_frame s h _ i hi,
    fun hi => ffiStep_frame s h _ i hi,
    fun hi => ffiStep_frame s h _ i hi,
    fun hi => ffiStep_frame s h _ i hi,
    fun f b b2 hl hf => ffiStep_fresh s h f b b2 hl hf⟩

/-- Witness for C9: applying balance through the FFI surface to the sole
handle of a one-builder store leaves that handle's builder unchanged. -/
theorem ffi_builder_ops_frame_witness :
    (ffi_transfer_operation_builder_balance [TransferOperationBuilder.new] 0).1[0]?
      = [TransferOperationBuilder.new][0]? :=
  ((((((ffi_builder_ops_frame [TransferOperationBuilder.new]
    0 0 0 0 0 0 0 "X" false false).2).2).2).2).1) (by decide)

end WalletMobile
